import Mathlib

/-!
Shallow embedding of the iroh session resource-binding subsystem
(`iroh-willow/src/session/resource.rs`), the no-op authenticator
(`iroh-base/src/auth.rs`) and the blob transfer-progress state machine
(`iroh-bytes/src/get/progress.rs`), with theorems checking the
natural-language specification against the code.

Modelling conventions:
* Rust `u64` values (handles, ids, offsets, sizes) are modelled as `Nat`.
  The only arithmetic performed on them by the embedded code is
  `next_handle += 1`, whose overflow would abort (panic) a debug Rust build
  rather than wrap, so `Nat` is faithful for every non-aborting execution.
* `HashMap` fields are modelled as association lists with a first-match
  lookup.  All inserts performed by the embedded code either use fresh keys
  or replace an existing binding, which the `insertA` operation below
  mirrors (replace the first occurrence, else append).
* `Waker` is an abstract type parameter `W`; waking a waker is modelled by
  returning the list of woken wakers, in wake order, as data.
* Async suspension (`Poll`) is modelled by an explicit `Poll` result plus
  explicit state passing; a `poll` that registers the caller's waker does
  so in the same pure state transition that returns `Pending`, exactly as
  the Rust code performs both under a single `&mut self` borrow with no
  intervening await point.
-/

namespace Iroh

/-! ### Association-list primitives (model of `HashMap`) -/

/-- First-match lookup in an association list. -/
def lookupA {K V : Type} [DecidableEq K] : List (K × V) → K → Option V
  | [], _ => none
  | (k1, v1) :: rest, k => if k1 = k then some v1 else lookupA rest k

/-- Embedding of `HashMap::insert`: replace the first binding of `k`, else append. -/
def insertA {K V : Type} [DecidableEq K] : List (K × V) → K → V → List (K × V)
  | [], k, v => [(k, v)]
  | (k1, v1) :: rest, k, v =>
    if k1 = k then (k, v) :: rest else (k1, v1) :: insertA rest k v

/-- Embedding of `HashMap::remove` (dropping the removed value): delete the bindings of `k`. -/
def eraseA {K V : Type} [DecidableEq K] : List (K × V) → K → List (K × V)
  | [], _ => []
  | (k1, v1) :: rest, k =>
    if k1 = k then eraseA rest k else (k1, v1) :: eraseA rest k

/-- Apply `f` to the value bound to `k`, if any (model of mutation through
`get_mut`); a no-op when `k` is absent. -/
def updateA {K V : Type} [DecidableEq K] : List (K × V) → K → (V → V) → List (K × V)
  | [], _, _ => []
  | (k1, v1) :: rest, k, f =>
    if k1 = k then (k1, f v1) :: rest else (k1, v1) :: updateA rest k f

/-! ### `Resource`, `ResourceMap` (from `session/resource.rs`) -/

/-- Embedding of `struct Resource<V> { value: V }` (the commented-out fields of the source
are omitted, as in the source). -/
structure Resource (V : Type) where
  value : V
deriving DecidableEq, Repr

/-- Embedding of `Resource::new`. -/
def Resource.new {V : Type} (value : V) : Resource V := ⟨value⟩

/-- Model of `std::task::Poll`. -/
inductive Poll (A : Type) where
  | Ready (a : A)
  | Pending
deriving DecidableEq, Repr

/-- Embedding of `struct ResourceMap<H, R>`.  The handle type `H` in the source is a
newtype over `u64` (`IsHandle : From<u64> + Into<u64> + Eq + Hash`), so it is
modelled as `Nat`; the value type `R` and waker type `W` stay generic. -/
structure ResourceMap (R W : Type) where
  next_handle : Nat
  map : List (Nat × Resource R)
  wakers : List (Nat × List W)
deriving DecidableEq, Repr

/-- Embedding of `impl Default for ResourceMap`. -/
instance {R W : Type} : Inhabited (ResourceMap R W) := ⟨⟨0, [], []⟩⟩

/-- The waker queue registered for `h` (empty when no entry exists);
`push_back` appends at the tail, `drain(..)` reads head to tail, so the list
order is registration order. -/
def ResourceMap.wakersFor {R W : Type} (rm : ResourceMap R W) (h : Nat) : List W :=
  (lookupA rm.wakers h).getD []

/-- Embedding of `ResourceMap::bind`: issue the next handle, insert the value, remove the
waker queue for that handle and wake every waker in it (front to back, i.e.
registration order).  Returns `(handle, woken wakers in wake order, new state)`. -/
def ResourceMap.bind {R W : Type} [DecidableEq R] (rm : ResourceMap R W) (resource : R) :
    Nat × List W × ResourceMap R W :=
  let handle := rm.next_handle
  let woken := (lookupA rm.wakers handle).getD []
  (handle, woken,
    { next_handle := rm.next_handle + 1
      map := insertA rm.map handle (Resource.new resource)
      wakers := eraseA rm.wakers handle })

/-- Embedding of `ResourceMap::register_waker`: `wakers.entry(h).or_default().push_back(w)`. -/
def ResourceMap.register_waker {R W : Type} (rm : ResourceMap R W) (h : Nat) (w : W) :
    ResourceMap R W :=
  { rm with wakers := insertA rm.wakers h (rm.wakersFor h ++ [w]) }

/-- The duplicate search of `bind_if_new`:
`map.iter().find_map(|(handle, r)| (r.value == resource).then_some(handle))`. -/
def findValue {R : Type} [DecidableEq R] (m : List (Nat × Resource R)) (resource : R) :
    Option Nat :=
  (m.find? (fun p => p.2.value = resource)).map (·.1)

/-- Embedding of `ResourceMap::bind_if_new`: return the handle of a structurally equal
value if one exists (`created = false`, no state change, nobody woken), else
`bind` (`created = true`). -/
def ResourceMap.bind_if_new {R W : Type} [DecidableEq R] (rm : ResourceMap R W)
    (resource : R) : Nat × Bool × List W × ResourceMap R W :=
  match findValue rm.map resource with
  | some handle => (handle, false, [], rm)
  | none =>
    let (handle, woken, rm1) := rm.bind resource
    (handle, true, woken, rm1)

/-- The `Error::MissingResource` variant of `session/error.rs` (declared
outside the sources under verification; only this variant is used by the
embedded code, carrying the looked-up handle). -/
inductive RError where
  | MissingResource (handle : Nat)
deriving DecidableEq, Repr

/-- Embedding of `ResourceMap::try_get`. -/
def ResourceMap.try_get {R W : Type} (rm : ResourceMap R W) (handle : Nat) :
    Except RError R :=
  match lookupA rm.map handle with
  | some r => .ok r.value
  | none => .error (.MissingResource handle)

/-- Embedding of `ResourceMap::get`. -/
def ResourceMap.get {R W : Type} (rm : ResourceMap R W) (handle : Nat) : Option R :=
  (lookupA rm.map handle).map (·.value)

/-- Embedding of `ResourceMap::poll_get_eventually` (also the body of the `poll_fn` inside
`get_eventually`, which is textually the same check-then-register step): if
the handle is bound, `Ready` with the value and the state unchanged; otherwise
register the caller's waker and return `Pending`.  Both the check and the
registration happen inside this one pure transition, as in the source they
happen under one `&mut self` borrow. -/
def ResourceMap.poll_get_eventually {R W : Type} (rm : ResourceMap R W) (handle : Nat)
    (w : W) : Poll R × ResourceMap R W :=
  match lookupA rm.map handle with
  | some r => (Poll.Ready r.value, rm)
  | none => (Poll.Pending, rm.register_waker handle w)

/-! ### `ResourceMaps` (from `session/resource.rs`) -/

/-- Carrier for `proto::sync::ReadCapability` (declared outside the verified
sources; the registry stores and compares it, never inspects it). -/
structure ReadCapability where
  raw : Nat
deriving DecidableEq, Repr

/-- Carrier for `proto::sync::SetupBindAreaOfInterest` (declared outside the
verified sources; stored and compared only). -/
structure SetupBindAreaOfInterest where
  raw : Nat
deriving DecidableEq, Repr

/-- Carrier for `proto::sync::StaticToken` (declared outside the verified
sources; stored and compared only). -/
structure StaticToken where
  raw : Nat
deriving DecidableEq, Repr

/-- Embedding of `proto::sync::ResourceHandle`: a handle tagged with its resource kind
(declared outside the verified sources; the four kinds are those dispatched
on by `ResourceMaps::register_waker`). -/
inductive ResourceHandle where
  | Capability (h : Nat)
  | AreaOfInterest (h : Nat)
  | StaticToken (h : Nat)
  | Intersection (h : Nat)
deriving DecidableEq, Repr

/-- Embedding of `struct ResourceMaps`: one table per peer-bindable resource kind. -/
structure ResourceMaps (W : Type) where
  capabilities : ResourceMap ReadCapability W
  areas_of_interest : ResourceMap SetupBindAreaOfInterest W
  static_tokens : ResourceMap StaticToken W
deriving DecidableEq, Repr

/-- Embedding of `impl Default for ResourceMaps` (derived in the source). -/
instance {W : Type} : Inhabited (ResourceMaps W) := ⟨⟨default, default, default⟩⟩

/-- Embedding of `ResourceMaps::register_waker`: dispatch on the handle kind to the
matching table.  The `Intersection` arm of the source is `unimplemented!()`,
a panic from which control never returns; the panic is modelled as `none`,
while every dispatching arm returns `some` of the updated maps. -/
def ResourceMaps.register_waker {W : Type} (maps : ResourceMaps W)
    (handle : ResourceHandle) (waker : W) : Option (ResourceMaps W) :=
  match handle with
  | .AreaOfInterest h =>
    some { maps with areas_of_interest := maps.areas_of_interest.register_waker h waker }
  | .Capability h =>
    some { maps with capabilities := maps.capabilities.register_waker h waker }
  | .StaticToken h =>
    some { maps with static_tokens := maps.static_tokens.register_waker h waker }
  | .Intersection _h => none

/-! ### Authentication hook (from `iroh-base/src/auth.rs`) -/

/-- Fixed-length byte strings: model of `[u8; n]`. -/
abbrev Bytes (n : Nat) := { l : List (Fin 256) // l.length = n }

/-- Embedding of `crate::hash::Hash`: a 32-byte blake3 hash (declared outside the verified
sources; carried opaquely by the code under verification, compared for
equality only). -/
abbrev Hash := Bytes 32

/-- Embedding of `enum BytesRequestData`. -/
inductive BytesRequestData where
  | Get (hash : Hash)

/-- Embedding of `enum RequestData`. -/
inductive RequestData where
  | Gossip (topic : Bytes 32)
  | Bytes (data : BytesRequestData)
  | Sync (namespaceId : Bytes 32)

/-- Embedding of `struct Request`. -/
structure Request where
  id : Nat
  data : RequestData

/-- Embedding of `enum AcceptOutcome`. -/
inductive AcceptOutcome where
  | Accept
  | Reject
deriving DecidableEq, Repr

/-- Embedding of `struct Token`. -/
structure Token where
  id : Bytes 16
  secret : Bytes 32

/-- Embedding of `struct NoAuthenticator`: the minimal authenticator that does nothing. -/
structure NoAuthenticator where

/-- Embedding of `anyhow::Result<T>`: any error is an opaque message. -/
abbrev AnyResult (T : Type) := Except String T

/-- Embedding of `NoAuthenticator::request` (from `impl DynAuthenticator for NoAuthenticator`). -/
def NoAuthenticator.request (_a : NoAuthenticator) (_request : Request) :
    AnyResult (Option Token) :=
  .ok none

/-- Embedding of `NoAuthenticator::respond` (from `impl DynAuthenticator for NoAuthenticator`). -/
def NoAuthenticator.respond (_a : NoAuthenticator) (_request : Request)
    (_token : Option Token) : AnyResult AcceptOutcome :=
  .ok AcceptOutcome.Accept

/-! ### Transfer progress (from `iroh-bytes/src/get/progress.rs`) -/

/-- Embedding of `std::num::NonZeroU64`. -/
abbrev NonZeroU64 := { n : Nat // 0 < n }

/-- Embedding of `store::BaoBlobSize` (declared outside the verified sources; constructed
and stored only, with its two variants `Verified` and `Unverified`). -/
inductive BaoBlobSize where
  | Verified (size : Nat)
  | Unverified (size : Nat)
deriving DecidableEq, Repr

/-- Carrier for `protocol::RangeSpec` (declared outside the verified sources;
stored opaquely). -/
structure RangeSpec where
  raw : List Nat
deriving DecidableEq, Repr

/-- Embedding of `enum ProgressState` for a single blob. -/
inductive ProgressState where
  | Pending
  | Progressing (offset : Nat)
  | Done
deriving DecidableEq, Repr

/-- Embedding of `#[default]` on `ProgressState::Pending`. -/
instance : Inhabited ProgressState := ⟨ProgressState.Pending⟩

/-- Embedding of `enum BlobId`: the root blob (child id 0) or a child blob (child id > 0). -/
inductive BlobId where
  | Root
  | Child (id : NonZeroU64)
deriving DecidableEq, Repr

/-- Embedding of `struct BlobState`. -/
structure BlobState where
  hash : Hash
  size : Option BaoBlobSize
  progress : ProgressState
  local_ranges : Option RangeSpec
  child_count : Option Nat
deriving DecidableEq

/-- Embedding of `BlobState::new`. -/
def BlobState.new (hash : Hash) : BlobState :=
  { hash := hash
    size := none
    local_ranges := none
    child_count := none
    progress := default }

/-- Embedding of `struct TransferState`.  The `children` and `progress_ids` `HashMap`s are
association lists as above. -/
structure TransferState where
  root : BlobState
  connected : Bool
  children : List (NonZeroU64 × BlobState)
  current : Option BlobId
  progress_ids : List (Nat × BlobId)
deriving DecidableEq

/-- Embedding of `TransferState::new`. -/
def TransferState.new (root_hash : Hash) : TransferState :=
  { root := BlobState.new root_hash
    connected := false
    children := []
    current := none
    progress_ids := [] }

/-- Embedding of `TransferState::get_blob`. -/
def TransferState.get_blob (s : TransferState) (blob_id : BlobId) : Option BlobState :=
  match blob_id with
  | .Root => some s.root
  | .Child id => lookupA s.children id

/-- Mutation through `TransferState::get_blob_mut`: apply `f` to the blob
`blob_id` refers to; a no-op when `get_blob_mut` would return `None`. -/
def TransferState.modifyBlob (s : TransferState) (blob_id : BlobId)
    (f : BlobState → BlobState) : TransferState :=
  match blob_id with
  | .Root => { s with root := f s.root }
  | .Child id => { s with children := updateA s.children id f }

/-- Mutation through `TransferState::get_or_insert_blob`: apply `f` to the
blob `blob_id` refers to, first inserting `BlobState::new hash` if a child
slot is vacant. -/
def TransferState.getOrInsertThen (s : TransferState) (blob_id : BlobId) (hash : Hash)
    (f : BlobState → BlobState) : TransferState :=
  match blob_id with
  | .Root => { s with root := f s.root }
  | .Child id =>
    match lookupA s.children id with
    | some blob => { s with children := insertA s.children id (f blob) }
    | none => { s with children := insertA s.children id (f (BlobState.new hash)) }

/-- Embedding of `TransferState::get_by_progress_id`: the source returns
`Option<&mut BlobState>` by composing the `progress_ids` lookup with
`get_blob_mut`; the pure embedding returns the `BlobId` of the existing
blob (`none` exactly when the source returns `None`). -/
def TransferState.get_by_progress_id (s : TransferState) (progress_id : Nat) :
    Option BlobId :=
  match lookupA s.progress_ids progress_id with
  | none => none
  | some blob_id => if (s.get_blob blob_id).isSome then some blob_id else none

/-- Embedding of `get::db::DownloadProgress` (declared outside the verified sources; the
variants below and their payloads are transcribed from the match arms of
`TransferState::on_progress`, with `Other` standing for every remaining
variant, all of which fall to the catch-all `_ => {}` arm). -/
inductive DownloadProgress where
  | FoundLocal (child : Nat) (hash : Hash) (size : BaoBlobSize) (valid_ranges : RangeSpec)
  | Connected
  | Found (id : Nat) (child : Nat) (hash : Hash) (size : Nat)
  | FoundHashSeq (hash : Hash) (children : Nat)
  | Progress (id : Nat) (offset : Nat)
  | Done (id : Nat)
  | Other

/-- Embedding of `BlobId::from_child_id`.  The source's
`NonZeroU64::new(id).expect("just checked")` cannot panic because the match
arm guarantees `id != 0`; totality of this function is that fact. -/
def BlobId.from_child_id (id : Nat) : BlobId :=
  if h : id = 0 then BlobId.Root
  else BlobId.Child ⟨id, Nat.pos_of_ne_zero h⟩

/-- Embedding of `impl From<BlobId> for u64`. -/
def BlobId.toU64 : BlobId → Nat
  | .Root => 0
  | .Child id => id.val

/-- Embedding of `TransferState::on_progress`. -/
def TransferState.on_progress (s : TransferState) (event : DownloadProgress) :
    TransferState :=
  match event with
  | .FoundLocal child hash size valid_ranges =>
    s.getOrInsertThen (BlobId.from_child_id child) hash
      (fun blob => { blob with size := some size, local_ranges := some valid_ranges })
  | .Connected => { s with connected := true }
  | .Found id child hash size =>
    let blob_id := BlobId.from_child_id child
    let s1 := s.getOrInsertThen blob_id hash (fun blob =>
      { blob with
          size := if blob.size.isNone then some (BaoBlobSize.Verified size) else blob.size
          progress := ProgressState.Progressing 0 })
    { s1 with
        progress_ids := insertA s1.progress_ids id blob_id
        current := some blob_id }
  | .FoundHashSeq hash children =>
    if hash = s.root.hash then
      { s with root := { s.root with child_count := some children } }
    else s
  | .Progress id offset =>
    match s.get_by_progress_id id with
    | some blob_id =>
      s.modifyBlob blob_id (fun blob => { blob with progress := ProgressState.Progressing offset })
    | none => s
  | .Done id =>
    match s.get_by_progress_id id with
    | some blob_id =>
      let s1 := s.modifyBlob blob_id (fun blob => { blob with progress := ProgressState.Done })
      { s1 with progress_ids := eraseA s1.progress_ids id }
    | none => s
  | .Other => s

/-! ### Drivers for call sequences

Thin wrappers that iterate the operations above, used only to state
properties over arbitrary call sequences. -/

/-- One call in a sequence of binding operations on a `ResourceMap`. -/
inductive Op (R : Type) where
  | bind (resource : R)
  | bindIfNew (resource : R)

/-- Run a sequence of binding calls, collecting the handles issued by `bind`
and by the `created = true` branch of `bind_if_new`, in call order. -/
def runOps {R W : Type} [DecidableEq R] :
    ResourceMap R W → List (Op R) → List Nat × ResourceMap R W
  | rm, [] => ([], rm)
  | rm, .bind r :: rest =>
    ((rm.bind r).1 :: (runOps (rm.bind r).2.2 rest).1, (runOps (rm.bind r).2.2 rest).2)
  | rm, .bindIfNew r :: rest =>
    ((if (rm.bind_if_new r).2.1 then [(rm.bind_if_new r).1] else []) ++
        (runOps (rm.bind_if_new r).2.2.2 rest).1,
      (runOps (rm.bind_if_new r).2.2.2 rest).2)

/-- Register a list of wakers on the same handle, in list order. -/
def registerAll {R W : Type} (rm : ResourceMap R W) (h : Nat) (ws : List W) :
    ResourceMap R W :=
  ws.foldl (fun s w => s.register_waker h w) rm

/-! ### Concrete fixtures (used by witness theorems only) -/

/-- A concrete 32-byte hash. -/
def hash0 : Hash := ⟨List.replicate 32 0, by simp⟩

/-- A concrete nonzero child id. -/
def one1 : NonZeroU64 := ⟨1, by decide⟩

/-- A concrete blob state. -/
def blob1 : BlobState := BlobState.new hash0

/-- A concrete transfer state: one child blob under id `1`, progress id `4`
mapped to it. -/
def sampleTS : TransferState :=
  { root := BlobState.new hash0
    connected := true
    children := [(one1, blob1)]
    current := some (BlobId.Child one1)
    progress_ids := [(4, BlobId.Child one1)] }

/-! ### Lemmas about the association-list primitives -/

theorem lookupA_insertA_self {K V : Type} [DecidableEq K] (l : List (K × V)) (k : K)
    (v : V) : lookupA (insertA l k v) k = some v := by
  induction l with
  | nil => simp [insertA, lookupA]
  | cons p rest ih =>
    obtain ⟨k1, v1⟩ := p
    by_cases hk : k1 = k
    · subst hk; simp [insertA, lookupA]
    · simp [insertA, lookupA, hk, ih]

theorem lookupA_insertA_ne {K V : Type} [DecidableEq K] (l : List (K × V)) (k k2 : K)
    (v : V) (hne : k2 ≠ k) : lookupA (insertA l k v) k2 = lookupA l k2 := by
  induction l with
  | nil => simp [insertA, lookupA, Ne.symm hne]
  | cons p rest ih =>
    obtain ⟨k1, v1⟩ := p
    by_cases hk : k1 = k
    · subst hk
      simp [insertA, lookupA, Ne.symm hne]
    · simp [insertA, lookupA, hk, ih]

theorem lookupA_eraseA_self {K V : Type} [DecidableEq K] (l : List (K × V)) (k : K) :
    lookupA (eraseA l k) k = none := by
  induction l with
  | nil => simp [eraseA, lookupA]
  | cons p rest ih =>
    obtain ⟨k1, v1⟩ := p
    by_cases hk : k1 = k
    · simp [eraseA, hk, ih]
    · simp [eraseA, lookupA, hk, ih]

theorem lookupA_eraseA_ne {K V : Type} [DecidableEq K] (l : List (K × V)) (k k2 : K)
    (hne : k2 ≠ k) : lookupA (eraseA l k) k2 = lookupA l k2 := by
  induction l with
  | nil => simp [eraseA]
  | cons p rest ih =>
    obtain ⟨k1, v1⟩ := p
    by_cases hk : k1 = k
    · subst hk
      simp [eraseA, lookupA, Ne.symm hne, ih]
    · simp [eraseA, lookupA, hk, ih]

theorem lookupA_updateA_self {K V : Type} [DecidableEq K] (l : List (K × V)) (k : K)
    (f : V → V) : lookupA (updateA l k f) k = (lookupA l k).map f := by
  induction l with
  | nil => simp [updateA, lookupA]
  | cons p rest ih =>
    obtain ⟨k1, v1⟩ := p
    by_cases hk : k1 = k
    · subst hk; simp [updateA, lookupA]
    · simp [updateA, lookupA, hk, ih]

theorem lookupA_updateA_ne {K V : Type} [DecidableEq K] (l : List (K × V)) (k k2 : K)
    (f : V → V) (hne : k2 ≠ k) : lookupA (updateA l k f) k2 = lookupA l k2 := by
  induction l with
  | nil => simp [updateA]
  | cons p rest ih =>
    obtain ⟨k1, v1⟩ := p
    by_cases hk : k1 = k
    · subst hk
      simp [updateA, lookupA, Ne.symm hne]
    · simp [updateA, lookupA, hk, ih]

theorem findValue_insertA_fresh {R : Type} [DecidableEq R] (m : List (Nat × Resource R))
    (r : R) (k : Nat) (hnone : findValue m r = none) :
    findValue (insertA m k (Resource.new r)) r = some k := by
  induction m with
  | nil => simp [insertA, findValue, List.find?, Resource.new]
  | cons p rest ih =>
    obtain ⟨k1, v1⟩ := p
    have hne : ¬(v1.value = r) := by
      intro hv
      simp [findValue, List.find?, hv] at hnone
    have hrest : findValue rest r = none := by
      simp [findValue, List.find?, hne] at hnone ⊢
      exact hnone
    by_cases hk : k1 = k
    · subst hk
      simp [insertA, findValue, List.find?, Resource.new]
    · simp only [insertA, if_neg hk]
      have := ih hrest
      simp [findValue, List.find?, hne] at this ⊢
      exact this

/-! ### Lemmas about `ResourceMap` operations -/

theorem register_waker_map_eq {R W : Type} (rm : ResourceMap R W) (h : Nat) (w : W) :
    (rm.register_waker h w).map = rm.map := rfl

theorem register_waker_next_eq {R W : Type} (rm : ResourceMap R W) (h : Nat) (w : W) :
    (rm.register_waker h w).next_handle = rm.next_handle := rfl

theorem wakersFor_register_self {R W : Type} (rm : ResourceMap R W) (h : Nat) (w : W) :
    (rm.register_waker h w).wakersFor h = rm.wakersFor h ++ [w] := by
  simp [ResourceMap.register_waker, ResourceMap.wakersFor, lookupA_insertA_self]

theorem wakersFor_register_ne {R W : Type} (rm : ResourceMap R W) (h h2 : Nat) (w : W)
    (hne : h2 ≠ h) :
    (rm.register_waker h w).wakersFor h2 = rm.wakersFor h2 := by
  simp [ResourceMap.register_waker, ResourceMap.wakersFor,
    lookupA_insertA_ne _ _ _ _ hne]

theorem registerAll_map_eq {R W : Type} (rm : ResourceMap R W) (h : Nat) (ws : List W) :
    (registerAll rm h ws).map = rm.map := by
  induction ws generalizing rm with
  | nil => rfl
  | cons w ws ih => simpa [registerAll] using ih (rm.register_waker h w)

theorem registerAll_next_eq {R W : Type} (rm : ResourceMap R W) (h : Nat) (ws : List W) :
    (registerAll rm h ws).next_handle = rm.next_handle := by
  induction ws generalizing rm with
  | nil => rfl
  | cons w ws ih => simpa [registerAll] using ih (rm.register_waker h w)

theorem wakersFor_registerAll_self {R W : Type} (rm : ResourceMap R W) (h : Nat)
    (ws : List W) : (registerAll rm h ws).wakersFor h = rm.wakersFor h ++ ws := by
  induction ws generalizing rm with
  | nil => simp [registerAll]
  | cons w ws ih =>
    have := ih (rm.register_waker h w)
    simp only [registerAll, List.foldl_cons] at this ⊢
    rw [this, wakersFor_register_self]
    simp

theorem bind_components {R W : Type} [DecidableEq R] (rm : ResourceMap R W) (v : R) :
    rm.bind v = (rm.next_handle, rm.wakersFor rm.next_handle,
      { next_handle := rm.next_handle + 1
        map := insertA rm.map rm.next_handle (Resource.new v)
        wakers := eraseA rm.wakers rm.next_handle }) := rfl

theorem bind_state_get_self {R W : Type} [DecidableEq R] (rm : ResourceMap R W) (v : R) :
    (rm.bind v).2.2.get rm.next_handle = some v := by
  simp [ResourceMap.bind, ResourceMap.get, lookupA_insertA_self, Resource.new]

theorem bind_state_wakersFor_self {R W : Type} [DecidableEq R] (rm : ResourceMap R W)
    (v : R) : (rm.bind v).2.2.wakersFor rm.next_handle = [] := by
  simp [ResourceMap.bind, ResourceMap.wakersFor, lookupA_eraseA_self]

theorem poll_get_eventually_of_bound {R W : Type} (rm : ResourceMap R W) (h : Nat)
    (w : W) (v : R) (hv : rm.get h = some v) :
    rm.poll_get_eventually h w = (Poll.Ready v, rm) := by
  simp only [ResourceMap.get] at hv
  cases hl : lookupA rm.map h with
  | none => simp [hl] at hv
  | some res =>
    simp only [hl, Option.map_some] at hv
    simp only [ResourceMap.poll_get_eventually, hl]
    exact congrArg (fun x => (Poll.Ready x, rm)) (Option.some_injective _ hv)

/-! ### Claim theorems -/

/-- Claim C1: `poll_get_eventually(h)` (and hence `get_eventually(h)`, whose
`poll_fn` body is the same step) resolves immediately with the bound value when
`h` is bound; when `h` is unbound it returns `Pending` and, in the same atomic
state transition, registers the caller's waker, so a later `bind` that assigns
`h` wakes the caller, empties the waker queue for `h` (the waiter is woken
exactly once) and a re-poll then resolves to the bound value. -/
theorem poll_get_eventually_no_missed_wakeup {R W : Type} [DecidableEq R]
    (rm : ResourceMap R W) (h : Nat) (w w2 : W) (v : R) :
    (∀ r, rm.get h = some r → rm.poll_get_eventually h w = (Poll.Ready r, rm)) ∧
    (rm.get h = none → rm.next_handle = h →
      ∃ rm1, rm.poll_get_eventually h w = (Poll.Pending, rm1) ∧
        rm1.wakersFor h = rm.wakersFor h ++ [w] ∧
        ∃ woken rm2, rm1.bind v = (h, woken, rm2) ∧ w ∈ woken ∧
          rm2.get h = some v ∧ rm2.wakersFor h = [] ∧
          rm2.poll_get_eventually h w2 = (Poll.Ready v, rm2)) := by
  constructor
  · intro r hr
    exact poll_get_eventually_of_bound rm h w r hr
  · intro hget hnext
    have hl : lookupA rm.map h = none := by
      simpa [ResourceMap.get] using hget
    subst hnext
    refine ⟨rm.register_waker rm.next_handle w, ?_, ?_, ?_⟩
    · simp [ResourceMap.poll_get_eventually, hl]
    · exact wakersFor_register_self rm rm.next_handle w
    · refine ⟨(rm.register_waker rm.next_handle w).wakersFor rm.next_handle,
        ((rm.register_waker rm.next_handle w).bind v).2.2, ?_, ?_, ?_, ?_, ?_⟩
      · rw [bind_components]
        rw [register_waker_next_eq]
      · rw [wakersFor_register_self]
        simp
      · have := bind_state_get_self (rm.register_waker rm.next_handle w) v
        rwa [register_waker_next_eq] at this
      · have := bind_state_wakersFor_self (rm.register_waker rm.next_handle w) v
        rwa [register_waker_next_eq] at this
      · apply poll_get_eventually_of_bound
        have := bind_state_get_self (rm.register_waker rm.next_handle w) v
        rwa [register_waker_next_eq] at this

/-- Witness for **C1**: both branches at concrete inputs.  On the table that
bound `42` at handle `0`, polling handle `0` is immediately `Ready 42`; on the
empty table, polling handle `0` is `Pending`, registers waker `7`, and the
subsequent `bind 42` assigns handle `0`, wakes waker `7` and leaves the value
`42` readable. -/
theorem poll_get_eventually_no_missed_wakeup_witness :
    ((ResourceMap.bind (default : ResourceMap Nat Nat) 42).2.2.poll_get_eventually 0 7 =
      (Poll.Ready 42, (ResourceMap.bind (default : ResourceMap Nat Nat) 42).2.2)) ∧
    ((default : ResourceMap Nat Nat).poll_get_eventually 0 7).1 = Poll.Pending ∧
    (((default : ResourceMap Nat Nat).poll_get_eventually 0 7).2).wakersFor 0 = [7] := by
  refine ⟨(poll_get_eventually_no_missed_wakeup
      (ResourceMap.bind (default : ResourceMap Nat Nat) 42).2.2 0 7 9 42).1 42 (by decide),
    ?_, ?_⟩
  all_goals
    obtain ⟨rm1, hp, hw, -⟩ :=
      (poll_get_eventually_no_missed_wakeup
        (default : ResourceMap Nat Nat) 0 7 9 42).2 (by decide) (by decide)
    rw [hp]
  simpa using hw
/-- Projection facts about `bind`. -/
theorem bind_handle_fst {R W : Type} [DecidableEq R] (rm : ResourceMap R W) (v : R) :
    (rm.bind v).1 = rm.next_handle := rfl

theorem bind_woken_eq {R W : Type} [DecidableEq R] (rm : ResourceMap R W) (v : R) :
    (rm.bind v).2.1 = rm.wakersFor rm.next_handle := rfl

theorem bind_state_next {R W : Type} [DecidableEq R] (rm : ResourceMap R W) (v : R) :
    (rm.bind v).2.2.next_handle = rm.next_handle + 1 := rfl

theorem bind_state_map {R W : Type} [DecidableEq R] (rm : ResourceMap R W) (v : R) :
    (rm.bind v).2.2.map = insertA rm.map rm.next_handle (Resource.new v) := rfl

/-- Helper for **C2**: over any sequence of `bind` / `bind_if_new` calls the
issued handles are exactly the consecutive range starting at the table's
current `next_handle`. -/
theorem runOps_issued_range {R W : Type} [DecidableEq R] (ops : List (Op R))
    (rm : ResourceMap R W) :
    ∃ k, (runOps rm ops).1 = List.range' rm.next_handle k ∧
      (runOps rm ops).2.next_handle = rm.next_handle + k := by
  induction ops generalizing rm with
  | nil => exact ⟨0, by simp [runOps], by simp [runOps]⟩
  | cons op rest ih =>
    cases op with
    | bind r =>
      obtain ⟨k, h1, h2⟩ := ih ((rm.bind r).2.2)
      refine ⟨k + 1, ?_, ?_⟩
      · simp only [runOps, bind_handle_fst, h1, bind_state_next, List.range'_succ]
      · simp only [runOps, h2, bind_state_next]
        omega
    | bindIfNew r =>
      cases hf : findValue rm.map r with
      | some h0 =>
        have hb : rm.bind_if_new r = (h0, false, [], rm) := by
          simp [ResourceMap.bind_if_new, hf]
        obtain ⟨k, h1, h2⟩ := ih rm
        exact ⟨k, by simp [runOps, hb, h1], by simp [runOps, hb, h2]⟩
      | none =>
        have hb : rm.bind_if_new r =
            ((rm.bind r).1, true, (rm.bind r).2.1, (rm.bind r).2.2) := by
          simp [ResourceMap.bind_if_new, hf, ResourceMap.bind]
        obtain ⟨k, h1, h2⟩ := ih ((rm.bind r).2.2)
        refine ⟨k + 1, ?_, ?_⟩
        · simp [runOps, hb, h1, bind_handle_fst, bind_state_next, List.range'_succ]
        · simp only [runOps, hb]
          simp only [h2, bind_state_next]
          omega

/-- Claim C2: over every sequence of `bind` calls and entry-creating
`bind_if_new` calls on one table started from its default state, the issued
handles are strictly increasing, start at `0` (they are exactly
`[0, 1, ..., k-1]`), and no handle is issued twice. -/
theorem bind_handles_strictly_increasing {R W : Type} [DecidableEq R]
    (ops : List (Op R)) :
    List.Chain' (· < ·) (runOps (default : ResourceMap R W) ops).1 ∧
    (runOps (default : ResourceMap R W) ops).1.Nodup ∧
    (runOps (default : ResourceMap R W) ops).1 =
      List.range (runOps (default : ResourceMap R W) ops).1.length := by
  obtain ⟨k, h1, -⟩ := runOps_issued_range ops (default : ResourceMap R W)
  have hd : (default : ResourceMap R W).next_handle = 0 := rfl
  rw [hd] at h1
  rw [h1, ← List.range_eq_range']
  exact ⟨(List.pairwise_lt_range k).chain', List.nodup_range k, by simp⟩

/-- Claim C3: with `N` waiters registered (in order `ws`) on the unbound handle
`h` that the table will assign next, `bind v` assigns `h`, wakes exactly the
registered waiters and in exactly their registration (FIFO) order, and
afterwards the bound value every waiter observes on re-lookup is the same
`v`. -/
theorem bind_wakes_fifo_same_value {R W : Type} [DecidableEq R]
    (rm : ResourceMap R W) (h : Nat) (ws : List W) (v : R)
    (hw : rm.wakersFor h = []) (hn : rm.next_handle = h) :
    ∃ rm2, (registerAll rm h ws).bind v = (h, ws, rm2) ∧
      rm2.get h = some v ∧
      ∀ w2 : W, rm2.poll_get_eventually h w2 = (Poll.Ready v, rm2) := by
  subst hn
  have hget : ((registerAll rm rm.next_handle ws).bind v).2.2.get rm.next_handle =
      some v := by
    have := bind_state_get_self (registerAll rm rm.next_handle ws) v
    rwa [registerAll_next_eq] at this
  refine ⟨((registerAll rm rm.next_handle ws).bind v).2.2, ?_, hget, ?_⟩
  · have e1 : ((registerAll rm rm.next_handle ws).bind v).1 = rm.next_handle := by
      rw [bind_handle_fst, registerAll_next_eq]
    have e2 : ((registerAll rm rm.next_handle ws).bind v).2.1 = ws := by
      rw [bind_woken_eq, registerAll_next_eq, wakersFor_registerAll_self, hw]
      simp
    exact Prod.ext e1 (Prod.ext e2 rfl)
  · intro w2
    exact poll_get_eventually_of_bound _ _ _ _ hget

/-- Witness for **C3**: on the empty table, registering wakers `3`, `1`, `2`
on handle `0` and then binding `42` wakes `[3, 1, 2]` in that (registration)
order, and the bound value read afterwards is `42`. -/
theorem bind_wakes_fifo_same_value_witness :
    ((registerAll (default : ResourceMap Nat Nat) 0 [3, 1, 2]).bind 42).2.1 =
      [3, 1, 2] ∧
    ((registerAll (default : ResourceMap Nat Nat) 0 [3, 1, 2]).bind 42).2.2.get 0 =
      some 42 := by
  obtain ⟨rm2, hb, hg, -⟩ :=
    bind_wakes_fifo_same_value (default : ResourceMap Nat Nat) 0 [3, 1, 2] 42
      (by decide) (by decide)
  constructor
  · rw [hb]
  · rw [hb]
    exact hg

/-- Claim C4: `bind_if_new` returns the handle of an already-bound structurally
equal value with `created = false` and leaves the table untouched; with no
equal value bound it behaves exactly as `bind` with `created = true`; and a
second `bind_if_new` with an equal value always returns the first call's
handle with `created = false` and an unchanged table. -/
theorem bind_if_new_deduplicates {R W : Type} [DecidableEq R] (rm : ResourceMap R W)
    (v : R) :
    (∀ h0, findValue rm.map v = some h0 → rm.bind_if_new v = (h0, false, [], rm)) ∧
    (findValue rm.map v = none →
      rm.bind_if_new v = ((rm.bind v).1, true, (rm.bind v).2.1, (rm.bind v).2.2)) ∧
    ((rm.bind_if_new v).2.2.2.bind_if_new v =
      ((rm.bind_if_new v).1, false, [], (rm.bind_if_new v).2.2.2)) := by
  refine ⟨?_, ?_, ?_⟩
  · intro h0 hf
    simp [ResourceMap.bind_if_new, hf]
  · intro hf
    simp [ResourceMap.bind_if_new, hf, ResourceMap.bind]
  · cases hf : findValue rm.map v with
    | some h0 =>
      have hb : rm.bind_if_new v = (h0, false, [], rm) := by
        simp [ResourceMap.bind_if_new, hf]
      rw [hb]
      exact hb
    | none =>
      have hb : rm.bind_if_new v =
          ((rm.bind v).1, true, (rm.bind v).2.1, (rm.bind v).2.2) := by
        simp [ResourceMap.bind_if_new, hf, ResourceMap.bind]
      have hf2 : findValue (rm.bind v).2.2.map v = some rm.next_handle := by
        rw [bind_state_map]
        exact findValue_insertA_fresh rm.map v rm.next_handle hf
      rw [hb]
      show (rm.bind v).2.2.bind_if_new v = ((rm.bind v).1, false, [], (rm.bind v).2.2)
      rw [bind_handle_fst]
      simp [ResourceMap.bind_if_new, hf2]

/-- Witness for **C4**: from the empty table, `bind_if_new 5` creates handle
`0` with `created = true`; calling it again returns `(0, created = false)`
and the table unchanged. -/
theorem bind_if_new_deduplicates_witness :
    (default : ResourceMap Nat Nat).bind_if_new 5 =
      (0, true, [], ((default : ResourceMap Nat Nat).bind 5).2.2) ∧
    ((default : ResourceMap Nat Nat).bind_if_new 5).2.2.2.bind_if_new 5 =
      (0, false, [], ((default : ResourceMap Nat Nat).bind_if_new 5).2.2.2) := by
  have h := bind_if_new_deduplicates (default : ResourceMap Nat Nat) 5
  exact ⟨h.2.1 (by decide), h.2.2⟩

/-- Claim C5: `try_get` on an unbound handle deterministically yields
`MissingResource` carrying that handle, `try_get` on a handle bound to `v`
yields `Ok v`, and `get` returns `none` / `some v` accordingly.  Both
operations take the table immutably (`&self` in the source; plain functions
of the state here), so neither modifies it. -/
theorem try_get_missing_resource {R W : Type} (rm : ResourceMap R W) (h : Nat) :
    (rm.get h = none → rm.try_get h = .error (.MissingResource h)) ∧
    (∀ v, rm.get h = some v → rm.try_get h = .ok v) := by
  cases hl : lookupA rm.map h with
  | none =>
    refine ⟨fun _ => by simp [ResourceMap.try_get, hl], fun v hv => ?_⟩
    simp [ResourceMap.get, hl] at hv
  | some res =>
    refine ⟨fun hn => ?_, fun v hv => ?_⟩
    · simp [ResourceMap.get, hl] at hn
    · simp only [ResourceMap.get, hl, Option.map_some] at hv
      simp only [ResourceMap.try_get, hl]
      exact congrArg Except.ok (Option.some_injective _ hv)

/-- Witness for **C5**: on the empty table `try_get 3` is
`MissingResource 3`; after `bind 42` (handle `0`), `try_get 0` is `Ok 42`. -/
theorem try_get_missing_resource_witness :
    (default : ResourceMap Nat Nat).try_get 3 = .error (.MissingResource 3) ∧
    ((default : ResourceMap Nat Nat).bind 42).2.2.try_get 0 = .ok 42 :=
  ⟨(try_get_missing_resource (default : ResourceMap Nat Nat) 3).1 (by decide),
   (try_get_missing_resource ((default : ResourceMap Nat Nat).bind 42).2.2 0).2 42
     (by decide)⟩

/-- Claim C6: `ResourceMaps::register_waker` on an `Intersection` handle hits
the `unimplemented!()` arm — an assertion-style panic from which no value is
returned (modelled as `none`), not a recoverable error (the source function
returns `()`, so it has no error channel at all) — while the `Capability`,
`AreaOfInterest` and `StaticToken` kinds dispatch to the corresponding
table's `register_waker` and return normally. -/
theorem register_waker_intersection_panics {W : Type} (maps : ResourceMaps W)
    (h : Nat) (w : W) :
    maps.register_waker (.Intersection h) w = none ∧
    maps.register_waker (.Capability h) w =
      some { maps with capabilities := maps.capabilities.register_waker h w } ∧
    maps.register_waker (.AreaOfInterest h) w =
      some { maps with areas_of_interest := maps.areas_of_interest.register_waker h w } ∧
    maps.register_waker (.StaticToken h) w =
      some { maps with static_tokens := maps.static_tokens.register_waker h w } :=
  ⟨rfl, rfl, rfl, rfl⟩

/-- Claim C7: a waiter suspended on unbound handle `5` (registered by the
`Pending` poll) whose calling flow is then abandoned is *not* removed from
the waker queue: the source defines no operation that removes a registered
waker other than `bind` of that same handle (`get_eventually` is a plain
`poll_fn` with no drop/cleanup path), so after the caller is cancelled the
stale entry persists — here it is still present after two further binds of
other handles.  This contradicts the specification's cancellation
requirement. -/
theorem cancelled_waiter_entry_persists :
    (((ResourceMap.bind (default : ResourceMap Nat Nat) 99).2.2.poll_get_eventually
        5 7).1 = Poll.Pending) ∧
    ((((ResourceMap.bind (default : ResourceMap Nat Nat) 99).2.2.poll_get_eventually
        5 7).2).wakersFor 5 = [7]) ∧
    (((((ResourceMap.bind (default : ResourceMap Nat Nat) 99).2.2.poll_get_eventually
        5 7).2.bind 100).2.2.bind 101).2.2.wakersFor 5 = [7]) := by
  decide

/-- Claim C8: the no-op authorization hook returns `Ok(None)` from `request`
(never issues a token) and `Ok(Accept)` from `respond` (always accepts),
regardless of the request and token contents. -/
theorem noAuthenticator_always_accepts (a : NoAuthenticator) (req : Request)
    (tok : Option Token) :
    a.request req = .ok none ∧ a.respond req tok = .ok AcceptOutcome.Accept :=
  ⟨rfl, rfl⟩

/-- Claim C10: `BlobId::from_child_id` maps `0` to `Root` and every nonzero
`id` to `Child id`, and converting back to `u64` recovers the original id for
every input; totality of the Lean function reflects that the source's
`NonZeroU64::new(id).expect(..)` can never panic, the nonzero match arm
having just excluded `0`. -/
theorem blobId_from_child_id_roundtrip :
    BlobId.from_child_id 0 = BlobId.Root ∧
    (∀ id : Nat, (BlobId.from_child_id id).toU64 = id) ∧
    (∀ id : Nat, ∀ hne : id ≠ 0,
      BlobId.from_child_id id = BlobId.Child ⟨id, Nat.pos_of_ne_zero hne⟩) := by
  refine ⟨by simp [BlobId.from_child_id], ?_, ?_⟩
  · intro id
    by_cases h : id = 0
    · subst h
      simp [BlobId.from_child_id, BlobId.toU64]
    · simp [BlobId.from_child_id, h, BlobId.toU64]
  · intro id hne
    simp [BlobId.from_child_id, hne]

/-- Witness for **C10**: at `id = 5` the conversion yields `Child 5` and
round-trips back to `5`. -/
theorem blobId_from_child_id_roundtrip_witness :
    (BlobId.from_child_id 5).toU64 = 5 ∧
    BlobId.from_child_id 5 = BlobId.Child ⟨5, by decide⟩ :=
  ⟨blobId_from_child_id_roundtrip.2.1 5,
   blobId_from_child_id_roundtrip.2.2 5 (by decide)⟩

/-! ### Lemmas about `TransferState` -/

theorem get_blob_modifyBlob_self (s : TransferState) (bid : BlobId)
    (f : BlobState → BlobState) :
    (s.modifyBlob bid f).get_blob bid = (s.get_blob bid).map f := by
  cases bid with
  | Root => simp [TransferState.modifyBlob, TransferState.get_blob]
  | Child id =>
    simp [TransferState.modifyBlob, TransferState.get_blob, lookupA_updateA_self]

theorem get_blob_modifyBlob_ne (s : TransferState) (bid bid2 : BlobId)
    (f : BlobState → BlobState) (hne : bid2 ≠ bid) :
    (s.modifyBlob bid f).get_blob bid2 = s.get_blob bid2 := by
  cases bid with
  | Root =>
    cases bid2 with
    | Root => exact absurd rfl hne
    | Child id2 => simp [TransferState.modifyBlob, TransferState.get_blob]
  | Child id =>
    cases bid2 with
    | Root => simp [TransferState.modifyBlob, TransferState.get_blob]
    | Child id2 =>
      have hid : id2 ≠ id := by
        intro h
        exact hne (by rw [h])
      simp [TransferState.modifyBlob, TransferState.get_blob,
        lookupA_updateA_ne _ _ _ _ hid]

theorem modifyBlob_connected (s : TransferState) (bid : BlobId)
    (f : BlobState → BlobState) : (s.modifyBlob bid f).connected = s.connected := by
  cases bid <;> rfl

theorem modifyBlob_current (s : TransferState) (bid : BlobId)
    (f : BlobState → BlobState) : (s.modifyBlob bid f).current = s.current := by
  cases bid <;> rfl

theorem modifyBlob_progress_ids (s : TransferState) (bid : BlobId)
    (f : BlobState → BlobState) : (s.modifyBlob bid f).progress_ids = s.progress_ids := by
  cases bid <;> rfl

theorem get_blob_set_progress_ids (s : TransferState) (pids : List (Nat × BlobId))
    (bid : BlobId) :
    ({ s with progress_ids := pids } : TransferState).get_blob bid = s.get_blob bid := by
  cases bid <;> rfl

/-- Claim C9: frame conditions of `on_progress` for `Done` and `Progress`
events.  A `Done { id }` whose progress id is mapped to an existing blob sets
exactly that blob's progress to `Done` and removes exactly that progress-id
mapping, leaving every other blob, the connected flag, the current pointer
and every other progress-id mapping unchanged; a `Done` for an unmapped id
changes nothing.  A `Progress { id, offset }` for a mapped id sets exactly
that blob's progress to `Progressing offset` and changes nothing else (the
progress-id table included); one for an unmapped id changes nothing. -/
theorem on_progress_done_progress_frame (s : TransferState) (p : Nat) (bid : BlobId)
    (b : BlobState) (off : Nat) :
    (lookupA s.progress_ids p = some bid → s.get_blob bid = some b →
      (s.on_progress (.Done p)).get_blob bid =
        some { b with progress := ProgressState.Done } ∧
      (∀ bid2, bid2 ≠ bid →
        (s.on_progress (.Done p)).get_blob bid2 = s.get_blob bid2) ∧
      (s.on_progress (.Done p)).connected = s.connected ∧
      (s.on_progress (.Done p)).current = s.current ∧
      lookupA (s.on_progress (.Done p)).progress_ids p = none ∧
      (∀ q, q ≠ p →
        lookupA (s.on_progress (.Done p)).progress_ids q = lookupA s.progress_ids q)) ∧
    (lookupA s.progress_ids p = none → s.on_progress (.Done p) = s) ∧
    (lookupA s.progress_ids p = some bid → s.get_blob bid = some b →
      (s.on_progress (.Progress p off)).get_blob bid =
        some { b with progress := ProgressState.Progressing off } ∧
      (∀ bid2, bid2 ≠ bid →
        (s.on_progress (.Progress p off)).get_blob bid2 = s.get_blob bid2) ∧
      (s.on_progress (.Progress p off)).connected = s.connected ∧
      (s.on_progress (.Progress p off)).current = s.current ∧
      (s.on_progress (.Progress p off)).progress_ids = s.progress_ids) ∧
    (lookupA s.progress_ids p = none → s.on_progress (.Progress p off) = s) := by
  refine ⟨?_, ?_, ?_, ?_⟩
  · intro hmap hblob
    have hgbp : s.get_by_progress_id p = some bid := by
      simp [TransferState.get_by_progress_id, hmap, hblob]
    have hD : s.on_progress (.Done p) =
        { s.modifyBlob bid (fun blob => { blob with progress := ProgressState.Done })
            with
          progress_ids :=
            eraseA (s.modifyBlob bid
              (fun blob => { blob with progress := ProgressState.Done })).progress_ids
              p } := by
      simp [TransferState.on_progress, hgbp]
    rw [hD]
    refine ⟨?_, ?_, ?_, ?_, ?_, ?_⟩
    · rw [get_blob_set_progress_ids, get_blob_modifyBlob_self, hblob]
      rfl
    · intro bid2 hne
      rw [get_blob_set_progress_ids, get_blob_modifyBlob_ne _ _ _ _ hne]
    · show (s.modifyBlob bid _).connected = s.connected
      exact modifyBlob_connected ..
    · show (s.modifyBlob bid _).current = s.current
      exact modifyBlob_current ..
    · show lookupA (eraseA (s.modifyBlob bid _).progress_ids p) p = none
      rw [modifyBlob_progress_ids]
      exact lookupA_eraseA_self ..
    · intro q hq
      show lookupA (eraseA (s.modifyBlob bid _).progress_ids p) q = _
      rw [modifyBlob_progress_ids]
      exact lookupA_eraseA_ne _ _ _ hq
  · intro hnone
    simp [TransferState.on_progress, TransferState.get_by_progress_id, hnone]
  · intro hmap hblob
    have hgbp : s.get_by_progress_id p = some bid := by
      simp [TransferState.get_by_progress_id, hmap, hblob]
    have hP : s.on_progress (.Progress p off) =
        s.modifyBlob bid
          (fun blob => { blob with progress := ProgressState.Progressing off }) := by
      simp [TransferState.on_progress, hgbp]
    rw [hP]
    refine ⟨?_, ?_, ?_, ?_, ?_⟩
    · rw [get_blob_modifyBlob_self, hblob]
      rfl
    · intro bid2 hne
      exact get_blob_modifyBlob_ne _ _ _ _ hne
    · exact modifyBlob_connected ..
    · exact modifyBlob_current ..
    · exact modifyBlob_progress_ids ..
  · intro hnone
    simp [TransferState.on_progress, TransferState.get_by_progress_id, hnone]

/-- Witness for **C9**: on the concrete transfer state with progress id `4`
mapped to child blob `1`, a `Done 4` event marks that blob done and unmaps
`4`; `Done 9` and `Progress 9 77` (unmapped ids) change nothing; a
`Progress 4 77` event sets that blob's offset to `77`. -/
theorem on_progress_done_progress_frame_witness :
    (sampleTS.on_progress (.Done 4)).get_blob (BlobId.Child one1) =
      some { blob1 with progress := ProgressState.Done } ∧
    lookupA (sampleTS.on_progress (.Done 4)).progress_ids 4 = none ∧
    sampleTS.on_progress (.Done 9) = sampleTS ∧
    (sampleTS.on_progress (.Progress 4 77)).get_blob (BlobId.Child one1) =
      some { blob1 with progress := ProgressState.Progressing 77 } ∧
    sampleTS.on_progress (.Progress 9 77) = sampleTS := by
  have hm : lookupA sampleTS.progress_ids 4 = some (BlobId.Child one1) := by decide
  have hb : sampleTS.get_blob (BlobId.Child one1) = some blob1 := by decide
  have h4 := on_progress_done_progress_frame sampleTS 4 (BlobId.Child one1) blob1 77
  have h9 := on_progress_done_progress_frame sampleTS 9 (BlobId.Child one1) blob1 77
  exact ⟨(h4.1 hm hb).1, (h4.1 hm hb).2.2.2.2.1, h9.2.1 (by decide),
    (h4.2.2.1 hm hb).1, h9.2.2.2 (by decide)⟩
end Iroh
